import Mathlib

set_option linter.unusedVariables false

deriving instance DecidableEq for Except

/-! Verification development for the docstrfmt formatter core
(src/docstrfmt/main.py): a shallow embedding of the docstring transformer
(`Visitor.leave_SimpleString`), the per-file job (`_format_file`), the batch
orchestrator (`_run_formatter`) and the CLI dispatch (`main`), together with
theorems settling the specification claims.  Text is represented as `List Char`
and the Python string helpers (`textwrap.dedent`, `textwrap.indent`,
`str.rstrip`, `str.splitlines`) are embedded faithfully for the inputs that
occur in this pipeline (no carriage returns, no form feeds inside docstrings).
-/

namespace Docstrfmt

abbrev Str := List Char

/-- Characters Python's default `str.strip` family treats as whitespace
(the subset relevant to this code base). -/
def isPyWhitespace (c : Char) : Bool :=
  c == ' ' || c == '\t' || c == '\n' || c == '\r' || c == '\x0b' || c == '\x0c'

/-- `str.rstrip` with an explicit character predicate. -/
def rstripBy (p : Char → Bool) (s : Str) : Str :=
  (s.reverse.dropWhile p).reverse

/-- Python `s.rstrip()` (strip all trailing whitespace). -/
def pyRstrip (s : Str) : Str := rstripBy isPyWhitespace s

/-- Python `s.lstrip()` (strip all leading whitespace). -/
def pyLstrip (s : Str) : Str := s.dropWhile isPyWhitespace

/-- Python `s.rstrip(" ")` (strip trailing spaces only). -/
def rstripSpaces (s : Str) : Str := rstripBy (fun c => c == ' ') s

/-- `len(s) - len(s.rstrip(c))`: the number of trailing occurrences of `c`. -/
def countTrailing (c : Char) (s : Str) : Nat :=
  (s.reverse.takeWhile (fun d => d == c)).length

/-- Prepend a character to the first segment of a split. -/
def consHead (c : Char) : List Str → List Str
  | [] => [[c]]
  | l :: ls => (c :: l) :: ls

/-- Python `s.split(chr(10))`: split on every newline, keeping empty segments.
The result is always nonempty. -/
def splitNL : Str → List Str
  | [] => [[]]
  | c :: rest => if c = '\n' then [] :: splitNL rest else consHead c (splitNL rest)

/-- Inverse of `splitNL`: join segments with newlines. -/
def joinNL : List Str → Str
  | [] => []
  | [l] => l
  | l :: ls => l ++ '\n' :: joinNL ls

/-- Python `s.splitlines()` for newline-separated text (no keepends). -/
def pySplitlines (s : Str) : List Str :=
  if s = [] then []
  else if s.getLast? = some '\n' then (splitNL s).dropLast
  else splitNL s

/-- A line consisting solely of blanks/tabs (the `^[ \t]+$` lines that
`textwrap.dedent` normalises away). -/
def isBlankWs (l : Str) : Bool :=
  !l.isEmpty && l.all (fun c => c == ' ' || c == '\t')

/-- The default line predicate of `textwrap.indent`: the line has some
non-whitespace character (`line.strip()` is truthy). -/
def hasContent (l : Str) : Bool := l.any (fun c => !isPyWhitespace c)

/-- Leading run of blanks/tabs of a line. -/
def leadingWs (l : Str) : Str := l.takeWhile (fun c => c == ' ' || c == '\t')

/-- Longest common prefix of two strings (the net effect of the margin merge
loop in `textwrap.dedent`). -/
def commonPfx : Str → Str → Str
  | a :: as, b :: bs => if a = b then a :: commonPfx as bs else []
  | _, _ => []

/-- Python `textwrap.dedent`: blank-only lines are normalised to empty; the
common leading-whitespace margin of the remaining lines is removed. -/
def pyDedent (s : Str) : Str :=
  let lines := (splitNL s).map (fun l => if isBlankWs l then [] else l)
  let contentLines := lines.filter (fun l => l.any (fun c => !(c == ' ' || c == '\t')))
  let margin :=
    match contentLines.map leadingWs with
    | [] => []
    | i :: is => is.foldl commonPfx i
  joinNL (lines.map (fun l => if margin.isPrefixOf l then l.drop margin.length else l))

/-- Python `textwrap.indent(s, pre)` (default predicate): prepend `pre` to
every line that has non-whitespace content. -/
def pyIndent (pre : Str) (s : Str) : Str :=
  joinNL ((splitNL s).map (fun l => if hasContent l then pre ++ l else l))

/-- Python `str.split()` with no separator: whitespace-delimited words. -/
def splitWords : Str → List Str
  | [] => []
  | c :: rest =>
    if isPyWhitespace c then splitWords rest
    else
      match rest with
      | [] => [[c]]
      | c2 :: _ =>
        if isPyWhitespace c2 then [c] :: splitWords rest
        else
          match splitWords rest with
          | [] => [[c]]
          | w :: ws => (c :: w) :: ws

/-- Greedy wrap of the remaining words given the current line. -/
def wrapAux (width : Nat) (cur : Str) : List Str → List Str
  | [] => [cur]
  | w :: ws =>
    if cur.length + 1 + w.length ≤ width then wrapAux width (cur ++ ' ' :: w) ws
    else cur :: wrapAux width w ws

/-- Greedy wrap of a word list at the given width. -/
def wrapWords (width : Nat) : List Str → List Str
  | [] => []
  | w :: ws => wrapAux width w ws

/-- Group consecutive content lines into paragraphs, dropping blank lines. -/
def groupParas : List Str → List (List Str)
  | [] => []
  | l :: ls =>
    if hasContent l then
      match ls with
      | l2 :: _ =>
        if hasContent l2 then
          match groupParas ls with
          | [] => [[l]]
          | g :: gs => (l :: g) :: gs
        else [l] :: groupParas ls
      | [] => [[l]]
    else groupParas ls

/-- Modelled from the spec: the Markup Engine's `parse_string` followed by
`format_node` (`docstrfmt.Manager`, which is not under src/).  Per the spec it
"parses raw text into a document model and renders it back at a target width":
modelled as paragraph-based reflow — paragraphs are runs of non-blank lines,
each paragraph's words are re-wrapped greedily at the target width, and
paragraphs are joined by single blank lines. -/
def renderModel (width : Nat) (s : Str) : Str :=
  let paras := groupParas (splitNL s)
  joinNL (List.intercalate [([] : Str)]
    (paras.map (fun p => wrapWords width (splitWords (joinNL p)))))

/-- Modelled from the spec: the Markup Engine's `error_count` side channel for
a render that reports no errors. -/
def zeroErrEngine : Nat → Str → Nat := fun _ _ => 0

/-- The per-docstring outcome of `Visitor.leave_SimpleString`: the
contribution to `self.misformatted`, the contribution to `self.error_count`,
and the (possibly replaced) literal value. -/
structure DocstringResult where
  misformatted : Bool
  errors : Nat
  value : Str
  deriving DecidableEq

/-- `SimpleString.evaluated_value` for a triple-quoted literal without escape
sequences: the text between the opening `pfx` + quote and the closing quote. -/
def evaluatedValueOf (pfx value : Str) : Str :=
  let inner := value.drop (pfx.length + 3)
  inner.take (inner.length - 3)

/-- main.py lines 171-173: the dedented, right-stripped docstring content
(`source = dedent((" " * indent_level) + original_node.evaluated_value).rstrip()`). -/
def docSource (indent_level : Nat) (evaluated_value : Str) : Str :=
  pyRstrip (pyDedent (List.replicate indent_level ' ' ++ evaluated_value))

/-- main.py lines 210-212: the replacement literal built for a misformatted
docstring (`indent(f-string, " " * indent_level).lstrip()`; note the opening
quote is hardcoded to three double quotes and is followed by a newline). -/
def newDocValue (indent_level : Nat) (pfx output ending : Str) : Str :=
  pyLstrip (pyIndent (List.replicate indent_level ' ')
    (pfx ++ "\"\"\"\n".data ++ output ++ ending ++ "\n\"\"\"".data))

/-- Shallow embedding of `Visitor.leave_SimpleString` (main.py lines 160-218)
for one docstring literal.  `render`/`renderErrCount` model the external
Markup Engine calls (`manager.parse_string` + `manager.format_node` and the
`manager.error_count` side channel); `blank_line` is
`manager.docstring_trailing_line`; `pfx` is `original_node.prefix` and
`value` the literal's source text, so `evaluatedValueOf pfx value` is
`original_node.evaluated_value`.  A `.error` result models the
`ValueError` raised on `width < 1`, which propagates out of the traversal
(there is no per-block handler). -/
def leave_SimpleString (render : Nat → Str → Str) (renderErrCount : Nat → Str → Nat)
    (blank_line : Bool) (line_length indent_level : Nat) (pfx value : Str) :
    Except Str DocstringResult :=
  let evaluated_value := evaluatedValueOf pfx value
  let source := docSource indent_level evaluated_value
  if line_length < indent_level + 1 then
    Except.error "Invalid starting width".data
  else
    let width := line_length - indent_level
    let output := pyRstrip (render width source)
    let errors := renderErrCount width source
    let single_line := (pySplitlines output).length == 1
    let original_strip := rstripSpaces evaluated_value
    let end_line_count := countTrailing '\n' original_strip
    let ending : Str := if single_line then [] else if blank_line then ['\n'] else []
    let correct_ending :=
      if single_line then end_line_count == 0
      else (if blank_line then 2 else 1) == end_line_count
    if source = output ∧ correct_ending then
      Except.ok ⟨false, errors, value⟩
    else
      Except.ok ⟨true, errors, newDocValue indent_level pfx output ending⟩

/-- Count of trailing blank lines of a docstring body: the number of trailing
newline characters (after stripping trailing spaces), minus the final newline
that precedes the closing quotes. -/
def trailingBlankCount (body : Str) : Nat :=
  countTrailing '\n' (rstripSpaces body) - 1

/-- Three single-quote characters (code point 39): the alternative docstring
quote style accepted by `Visitor._is_docstring`. -/
def tripleSQ : Str := [Char.ofNat 39, Char.ofNat 39, Char.ofNat 39]

/-! ### Per-file job, batch orchestrator, cache, CLI dispatch -/

abbrev FileId := String

/-- A file as `_format_file` sees it: its basename (`file.name`, possibly the
stdin sentinel), its extension (`file.suffix`), and the result of running
`open` + `read` on it (main.py lines 329-336, executed before the `try`
block): `.error` models an I/O failure raised there. -/
structure SrcFile where
  name : String
  suffix : String
  readResult : Except Str String
  deriving DecidableEq

/-- Shallow embedding of `_format_file` (main.py lines 312-373).  `processPy`
and `processRst` model `_process_python` / `_process_rst` applied to the
file's text; a `.error` from them models an exception escaping them
(`InvalidRstErrors` or any other), which lines 365-372 catch and convert into
one counted error with `misformatted` left `False`.  The `check`,
`line_length`, `mode`, `docstring_trailing_line`, `raw_output` and `lock`
arguments of the original influence only writing and reporting, so they are
carried inside `processPy`/`processRst` here.  The file read happens before
the `try`, so a read failure propagates out as `.error`. -/
def _format_file (file : SrcFile) (file_type : String) (include_txt : Bool)
    (processPy processRst : String → Except Str (Bool × Nat)) :
    Except Str (Bool × Nat) :=
  match file.readResult with
  | .error e => .error e
  | .ok input_string =>
    let attempt : Except Str (Bool × Nat) :=
      if file.suffix == ".py" || (file_type == "py" && file.name == "-") then
        processPy input_string
      else if (file.suffix ∈ (if include_txt then [".rst", ".txt"] else [".rst"]))
          || file.name == "-" then
        processRst input_string
      else
        .ok (false, 0)
    match attempt with
    | .ok pr => .ok pr
    | .error _ => .ok (false, 1)

/-- Outcome of one orchestrated task as the completion loop of
`_run_formatter` consumes it (main.py lines 288-304). -/
inductive TaskResult where
  | cancelled
  | raised (msg : Str)
  | completed (misformatted : Bool) (errors : Nat)
  deriving DecidableEq

/-- State of `_run_formatter`'s completion loop. -/
structure RunState where
  cancelled : List FileId
  error_count : Nat
  misformatted_files : List FileId
  files_to_cache : List FileId
  deriving DecidableEq

def initRunState : RunState := ⟨[], 0, [], []⟩

/-- One iteration of the completion loop (main.py lines 288-304): merge one
settled task into the loop state.  A file is appended to `files_to_cache`
exactly when its task completed and
`(not (misformatted and raw_output) or (check and not misformatted)) and
errors == 0`. -/
def runStep (check raw_output : Bool) (st : RunState) (p : FileId × TaskResult) :
    RunState :=
  match p.2 with
  | .cancelled => { st with cancelled := st.cancelled ++ [p.1] }
  | .raised _ => { st with error_count := st.error_count + 1 }
  | .completed m e =>
    let st1 := { st with error_count := st.error_count + e }
    let st2 :=
      if m then { st1 with misformatted_files := st1.misformatted_files ++ [p.1] }
      else st1
    if ((!(m && raw_output)) || (check && !m)) && e == 0 then
      { st2 with files_to_cache := st2.files_to_cache ++ [p.1] }
    else st2

/-- Errors a task contributes to the aggregate count (lines 292-298). -/
def taskErrors : TaskResult → Nat
  | .cancelled => 0
  | .raised _ => 1
  | .completed _ e => e

/-- Shallow embedding of `_run_formatter`'s aggregation (main.py lines
254-309) over the settled task outcomes in completion order: the final loop
state together with the cache-write batches issued by the run (lines 307-308:
a single batched `cache.write_cache(files_to_cache)` after the loop, issued
only when the batch is nonempty). -/
def _run_formatter (check raw_output : Bool)
    (results : List (FileId × TaskResult)) : RunState × List (List FileId) :=
  let st := results.foldl (runStep check raw_output) initRunState
  (st, if st.files_to_cache.isEmpty then [] else [st.files_to_cache])

/-- Modelled from the spec: the Fingerprint Cache (`FileCache` from util.py,
which is not under src/): "maps file identity to a content fingerprint;
partitions an input file set into already-known-good vs to-do; accepts a
batch commit after a run."  Entries are an association list, newest first. -/
abbrev Cache := List (FileId × Nat)

/-- Modelled from the spec: look up the stored fingerprint of a file. -/
def cacheLookup (cache : Cache) (f : FileId) : Option Nat :=
  (cache.find? (fun e => e.1 == f)).map (fun e => e.2)

/-- Modelled from the spec: `cache.gen_todo_list(files)` — "partition(files)
-> (todo, skip)"; a file is skipped when its current fingerprint (`fp`)
matches the stored one. -/
def gen_todo_list (cache : Cache) (fp : FileId → Nat) (files : List FileId) :
    List FileId × List FileId :=
  (files.filter (fun f => !(cacheLookup cache f == some (fp f))),
   files.filter (fun f => cacheLookup cache f == some (fp f)))

/-- Modelled from the spec: `cache.write_cache(files)` — "commit(files):
persists fingerprints for the given files; safe to call with an empty set". -/
def write_cache (cache : Cache) (fp : FileId → Nat) (files : List FileId) :
    Cache :=
  files.foldl (fun acc f => (f, fp f) :: acc) cache

/-- The condensed observable outcome of one `main` invocation: process exit
code, the files actually handed to `_format_file`, the files skipped by the
cache partition, how many times the cache was partitioned, the cache-write
batches, the resulting cache, and the aggregates. -/
structure MainOutcome where
  exit_code : Nat
  scheduled : List FileId
  skipped : List FileId
  partitions : Nat
  commits : List (List FileId)
  cache : Cache
  misformatted_files : List FileId
  error_count : Nat
  deriving DecidableEq

/-- main.py lines 788-790: exit 1 when check mode found misformatted files or
any error occurred, else exit 0. -/
def exitOf (check : Bool) (misformatted_files : List FileId)
    (error_count : Nat) : Nat :=
  if (check = true ∧ misformatted_files ≠ []) ∨ 0 < error_count then 1 else 0

/-- The multi-file branch of `main` (main.py lines 736-770): run
`_run_formatter` over the cache partition's todo set — each todo file's
`_format_file` result (`outcome`) becomes a completed task, an exception a
raised task — then aggregate, and issue at most one batched commit. -/
def runMulti (check raw_output : Bool) (cache0 : Cache) (fp : FileId → Nat)
    (outcome : FileId → Except Str (Bool × Nat)) (files : List FileId) :
    MainOutcome :=
  let todo := (gen_todo_list cache0 fp files).1
  let skip := (gen_todo_list cache0 fp files).2
  let results := todo.map (fun f =>
    (f, match outcome f with
        | .ok pr => TaskResult.completed pr.1 pr.2
        | .error msg => TaskResult.raised msg))
  let st := results.foldl (runStep check raw_output) initRunState
  ⟨exitOf check st.misformatted_files st.error_count, todo, skip, 1,
    if st.files_to_cache.isEmpty then [] else [st.files_to_cache],
    if st.files_to_cache.isEmpty then cache0
    else write_cache cache0 fp st.files_to_cache,
    st.misformatted_files, st.error_count⟩

/-- Shallow embedding of `main` (main.py lines 670-790) for a run over file
arguments.  `outcome f` is the `_format_file` result for `f` (`.error` models
an exception raised inside the job, such as an unreadable file); `rawInput`
models the `--raw-input` branch of lines 698-717 (`none` when absent,
`some (.error ())` when it raises `InvalidRstErrors`, `some (.ok m)`
otherwise).  Line 688: stdin mixed with other paths exits 2 before any file
is processed.  Lines 720-734: with fewer than two files `main` calls
`_format_file` directly and never touches the cache; an exception from that
direct call propagates (`.error`).  Otherwise lines 736-770 run
`_run_formatter`, which partitions through the cache, schedules only `todo`,
and issues at most one batched commit. -/
def main (check raw_output : Bool) (rawInput : Option (Except Unit Bool))
    (cache0 : Cache) (fp : FileId → Nat)
    (outcome : FileId → Except Str (Bool × Nat)) (files : List FileId) :
    Except Str MainOutcome :=
  if "-" ∈ files ∧ 1 < files.length then
    .ok ⟨2, [], [], 0, [], cache0, [], 0⟩
  else
    match rawInput with
    | some (.error _) => .ok ⟨1, [], [], 0, [], cache0, [], 0⟩
    | some (.ok m) =>
      .ok ⟨0, [], [], 0, [], cache0, if m then ["<raw_input>"] else [], 0⟩
    | none =>
      if files.length < 2 then
        match files with
        | [] => .ok ⟨exitOf check [] 0, [], [], 0, [], cache0, [], 0⟩
        | f :: _ =>
          match outcome f with
          | .error e => .error e
          | .ok (m, ec) =>
            let mfs := if m then [f] else []
            .ok ⟨exitOf check mfs ec, [f], [], 0, [], cache0, mfs, ec⟩
      else
        .ok (runMulti check raw_output cache0 fp outcome files)

/-- The per-docstring inputs of one documentation block of a Python file, in
traversal order. -/
structure Block where
  pfx : Str
  value : Str
  indent_level : Nat
  deriving DecidableEq

/-- The traversal of a file's docstrings by `wrapper.visit(visitor)` (main.py
line 472): each block runs `leave_SimpleString`; an exception raised at any
block aborts the traversal — the `Visitor` has no per-block handler. -/
def visitBlocks (render : Nat → Str → Str) (errC : Nat → Str → Nat) (P : Bool)
    (ll : Nat) : List Block → Except Str (List DocstringResult)
  | [] => .ok []
  | b :: bs =>
    match leave_SimpleString render errC P ll b.indent_level b.pfx b.value with
    | .error e => .error e
    | .ok r =>
      match visitBlocks render errC P ll bs with
      | .error e => .error e
      | .ok rs => .ok (r :: rs)

/-- `_process_python` (main.py lines 457-495) reduced to its returned pair:
`visitor.misformatted` is the disjunction over the processed blocks and
`visitor.error_count` their sum; a propagating exception is `.error`. -/
def _process_python (render : Nat → Str → Str) (errC : Nat → Str → Nat)
    (P : Bool) (ll : Nat) (blocks : List Block) : Except Str (Bool × Nat) :=
  (visitBlocks render errC P ll blocks).map
    (fun rs => (rs.any (fun r => r.misformatted), (rs.map (fun r => r.errors)).sum))

/-- Traversal events seen by the `Visitor`'s scope-tracking hooks. -/
inductive TravEvent where
  | visitModule
  | visitClassDef (name : String)
  | leaveClassDef
  | visitFunctionDef (name : String)
  | leaveFunctionDef
  | visitAssignTarget (name : String)
  | leaveString (isDoc : Bool)
  deriving DecidableEq

/-- The `Visitor`'s scope-tracking state: `_object_names`, `_object_type` and
`_last_assign` (reduced to the extracted target name). -/
structure VisitorState where
  object_names : List String
  object_type : Option String
  last_assign : Option String
  deriving DecidableEq

/-- The display classification a docstring receives
(`self._object_type` plus the joined `self._object_names`). -/
structure DocDisplay where
  object_type : Option String
  object_names : List String
  deriving DecidableEq

/-- One traversal callback (main.py lines 150-237): the state update and, at a
docstring, the emitted classification.  For a docstring with a pending
assignment, lines 166-169 push the target name and set the type to
"attribute" for the classification, and lines 214-217 pop that name, restore
the previous type and clear the marker — so the net state keeps the stack and
type and clears `last_assign`, while the emitted names end with the target.
`leave_ClassDef`/`leave_FunctionDef` (lines 150-158) pop the scope name and do
not touch `last_assign`. -/
def stepVisitor (st : VisitorState) : TravEvent → VisitorState × Option DocDisplay
  | .visitModule => ({ st with object_type := some "module" }, none)
  | .visitClassDef n =>
    (⟨st.object_names ++ [n], some "class", none⟩, none)
  | .leaveClassDef => ({ st with object_names := st.object_names.dropLast }, none)
  | .visitFunctionDef n =>
    (⟨st.object_names ++ [n], some "function", none⟩, none)
  | .leaveFunctionDef => ({ st with object_names := st.object_names.dropLast }, none)
  | .visitAssignTarget n => ({ st with last_assign := some n }, none)
  | .leaveString false => (st, none)
  | .leaveString true =>
    match st.last_assign with
    | some n =>
      ({ st with last_assign := none },
       some ⟨some "attribute", st.object_names ++ [n]⟩)
    | none => (st, some ⟨st.object_type, st.object_names⟩)

/-- Run the visitor callbacks over an event sequence, collecting the emitted
classifications. -/
def runVisitor (st : VisitorState) : List TravEvent → VisitorState × List DocDisplay
  | [] => (st, [])
  | e :: es =>
    let r1 := stepVisitor st e
    let r2 := runVisitor r1.1 es
    (r2.1, r1.2.toList ++ r2.2)

/-- Initial visitor state (main.py lines 133-143): the module object name is
pushed at construction. -/
def initVisitor (object_name : String) : VisitorState := ⟨[object_name], none, none⟩

/-- Number of scope-entry events in a traversal. -/
def countEnters : List TravEvent → Nat
  | [] => 0
  | e :: es =>
    (match e with
     | .visitClassDef _ => 1
     | .visitFunctionDef _ => 1
     | _ => 0) + countEnters es

/-- Number of scope-exit events in a traversal. -/
def countExits : List TravEvent → Nat
  | [] => 0
  | e :: es =>
    (match e with
     | .leaveClassDef => 1
     | .leaveFunctionDef => 1
     | _ => 0) + countExits es

/-! ### Structural lemmas about the line-based string helpers -/

theorem consHead_ne_nil (c : Char) (ls : List Str) : consHead c ls ≠ [] := by
  cases ls <;> simp [consHead]

theorem consHead_append (c : Char) (xs ys : List Str) (h : xs ≠ []) :
    consHead c (xs ++ ys) = consHead c xs ++ ys := by
  cases xs with
  | nil => exact absurd rfl h
  | cons l ls => simp [consHead]

theorem splitNL_ne_nil (s : Str) : splitNL s ≠ [] := by
  cases s with
  | nil => simp [splitNL]
  | cons c rest =>
    by_cases hc : c = '\n'
    · simp [splitNL, hc]
    · simp only [splitNL, if_neg hc]
      exact consHead_ne_nil c (splitNL rest)

theorem splitNL_cons_newline (b : Str) : splitNL ('\n' :: b) = [] :: splitNL b := by
  simp [splitNL]

theorem splitNL_cons_other (c : Char) (b : Str) (hc : c ≠ '\n') :
    splitNL (c :: b) = consHead c (splitNL b) := by
  simp [splitNL, hc]

theorem splitNL_of_no_newline (s : Str) (h : '\n' ∉ s) : splitNL s = [s] := by
  induction s with
  | nil => simp [splitNL]
  | cons c rest ih =>
    have hc : c ≠ '\n' := fun hcc => h (hcc ▸ List.mem_cons_self c rest)
    have hr : '\n' ∉ rest := fun hrr => h (List.mem_cons_of_mem c hrr)
    rw [splitNL_cons_other c rest hc, ih hr]
    rfl

theorem splitNL_append_newline (a b : Str) :
    splitNL (a ++ '\n' :: b) = splitNL a ++ splitNL b := by
  induction a with
  | nil => simp [splitNL_cons_newline, splitNL]
  | cons c a2 ih =>
    by_cases hc : c = '\n'
    · subst hc
      rw [List.cons_append, splitNL_cons_newline, splitNL_cons_newline, ih]
      simp
    · rw [List.cons_append, splitNL_cons_other c _ hc, splitNL_cons_other c _ hc, ih,
        consHead_append c _ _ (splitNL_ne_nil a2)]

theorem joinNL_cons (l : Str) (ls : List Str) (h : ls ≠ []) :
    joinNL (l :: ls) = l ++ '\n' :: joinNL ls := by
  cases ls with
  | nil => exact absurd rfl h
  | cons x xs => rfl

theorem joinNL_append (xs ys : List Str) (hx : xs ≠ []) (hy : ys ≠ []) :
    joinNL (xs ++ ys) = joinNL xs ++ '\n' :: joinNL ys := by
  induction xs with
  | nil => exact absurd rfl hx
  | cons x xs2 ih =>
    cases xs2 with
    | nil => simp [joinNL, joinNL_cons x ys hy]
    | cons z zs =>
      rw [List.cons_append, joinNL_cons x ((z :: zs) ++ ys) (by simp),
        joinNL_cons x (z :: zs) (by simp), ih (by simp)]
      simp

theorem mem_of_getLast?_eq (l : Str) (c : Char) (h : l.getLast? = some c) : c ∈ l := by
  induction l with
  | nil => simp at h
  | cons a rest ih =>
    cases rest with
    | nil => simp_all
    | cons b bs =>
      rw [List.getLast?_cons_cons] at h
      exact List.mem_cons_of_mem a (ih h)

theorem ne_nil_of_getLast?_eq (l : Str) (c : Char) (h : l.getLast? = some c) : l ≠ [] := by
  intro hl
  subst hl
  simp at h

theorem getLast?_cons_of_ne_nil (a : Char) (l : Str) (h : l ≠ []) :
    (a :: l).getLast? = l.getLast? := by
  cases l with
  | nil => exact absurd rfl h
  | cons b bs => exact List.getLast?_cons_cons

theorem getLast?_append_right (x y : Str) (h : y ≠ []) :
    (x ++ y).getLast? = y.getLast? := by
  rw [List.getLast?_append]
  cases hy : y.getLast? with
  | none => exact absurd (List.getLast?_eq_none_iff.mp hy) h
  | some c => simp

theorem joinNL_getLast? (ls : List Str) (L : Str) (h : ls.getLast? = some L)
    (hL : L ≠ []) : (joinNL ls).getLast? = L.getLast? := by
  induction ls with
  | nil => simp at h
  | cons l rest ih =>
    cases rest with
    | nil =>
      simp only [List.getLast?_singleton, Option.some.injEq] at h
      subst h
      rfl
    | cons m ms =>
      rw [List.getLast?_cons_cons] at h
      have hJ := ih h
      have hLsome : ∃ d, L.getLast? = some d := by
        cases hd : L.getLast? with
        | none => exact absurd (List.getLast?_eq_none_iff.mp hd) hL
        | some d => exact ⟨d, rfl⟩
      obtain ⟨d, hd⟩ := hLsome
      have hJne : joinNL (m :: ms) ≠ [] := by
        apply ne_nil_of_getLast?_eq _ d
        rw [hJ, hd]
      rw [joinNL_cons l (m :: ms) (by simp), getLast?_append_right _ _ (by simp),
        getLast?_cons_of_ne_nil _ _ hJne, hJ]

theorem splitNL_getLast (s : Str) (c : Char) (h : s.getLast? = some c)
    (hc : c ≠ '\n') :
    ∃ L, (splitNL s).getLast? = some L ∧ L.getLast? = some c := by
  induction s with
  | nil => simp at h
  | cons a rest ih =>
    cases rest with
    | nil =>
      simp only [List.getLast?_singleton, Option.some.injEq] at h
      have ha : a ≠ '\n' := by rw [h]; exact hc
      refine ⟨[a], ?_, ?_⟩
      · rw [splitNL_of_no_newline [a] (by simpa using (Ne.symm ha))]
        rfl
      · simpa using h
    | cons r rs =>
      rw [List.getLast?_cons_cons] at h
      obtain ⟨L, hL1, hL2⟩ := ih h
      by_cases ha : a = '\n'
      · subst ha
        refine ⟨L, ?_, hL2⟩
        rw [splitNL_cons_newline]
        cases hsp : splitNL (r :: rs) with
        | nil => exact absurd hsp (splitNL_ne_nil _)
        | cons m ms => rw [hsp] at hL1; rw [List.getLast?_cons_cons]; exact hL1
      · rw [splitNL_cons_other a _ ha]
        cases hsp : splitNL (r :: rs) with
        | nil => exact absurd hsp (splitNL_ne_nil _)
        | cons m ms =>
          rw [hsp] at hL1
          cases ms with
          | nil =>
            simp only [List.getLast?_singleton, Option.some.injEq] at hL1
            obtain rfl := hL1
            refine ⟨a :: m, ?_, ?_⟩
            · rfl
            · rw [getLast?_cons_of_ne_nil a m (ne_nil_of_getLast?_eq m c hL2)]
              exact hL2
          | cons m2 ms2 =>
            refine ⟨L, ?_, hL2⟩
            simp only [consHead]
            rw [List.getLast?_cons_cons]
            rw [List.getLast?_cons_cons] at hL1
            exact hL1

theorem dropWhile_append_of_all (p : Char → Bool) (a b : Str)
    (h : ∀ c ∈ a, p c = true) : (a ++ b).dropWhile p = b.dropWhile p := by
  induction a with
  | nil => simp
  | cons x xs ih =>
    rw [List.cons_append, List.dropWhile_cons, if_pos (h x (List.mem_cons_self x xs))]
    exact ih (fun c hc => h c (List.mem_cons_of_mem x hc))

theorem rstripBy_append_all (p : Char → Bool) (x y : Str)
    (h : ∀ c ∈ y, p c = true) : rstripBy p (x ++ y) = rstripBy p x := by
  unfold rstripBy
  rw [List.reverse_append, dropWhile_append_of_all p y.reverse x.reverse
    (fun c hc => h c (List.mem_reverse.mp hc))]

theorem rstripBy_eq_self_of_last (p : Char → Bool) (s : Str) (c : Char)
    (h : s.getLast? = some c) (hc : p c = false) : rstripBy p s = s := by
  unfold rstripBy
  have hrev : s.reverse.head? = some c := by rw [List.head?_reverse]; exact h
  cases hr : s.reverse with
  | nil => rw [hr] at hrev; simp at hrev
  | cons d ds =>
    rw [hr] at hrev
    simp only [List.head?_cons, Option.some.injEq] at hrev
    subst hrev
    rw [List.dropWhile_cons, if_neg (by simp [hc]), ← hr, List.reverse_reverse]

theorem head?_dropWhile (p : Char → Bool) (l : Str) (c : Char)
    (h : (l.dropWhile p).head? = some c) : p c = false := by
  induction l with
  | nil => simp at h
  | cons x xs ih =>
    rw [List.dropWhile_cons] at h
    by_cases hx : p x = true
    · rw [if_pos hx] at h; exact ih h
    · rw [if_neg hx] at h
      simp only [List.head?_cons, Option.some.injEq] at h
      subst h
      simpa using hx

theorem rstripBy_getLast? (p : Char → Bool) (s : Str) (c : Char)
    (h : (rstripBy p s).getLast? = some c) : p c = false := by
  unfold rstripBy at h
  rw [List.getLast?_reverse] at h
  exact head?_dropWhile p s.reverse c h

/-! ### Shape of the rebuilt docstring literal -/

theorem hasContent_append_right (x y : Str) (h : hasContent y = true) :
    hasContent (x ++ y) = true := by
  simp only [hasContent, List.any_append] at h ⊢
  rw [h, Bool.or_true]

theorem hasContent_of_getLast? (l : Str) (d : Char) (h : l.getLast? = some d)
    (hd : isPyWhitespace d = false) : hasContent l = true := by
  simp only [hasContent, List.any_eq_true]
  exact ⟨d, mem_of_getLast?_eq l d h, by simp [hd]⟩

theorem pyIndent_first_line (pre a tail : Str) (ha_nl : '\n' ∉ a)
    (ha_c : hasContent a = true) :
    pyIndent pre (a ++ '\n' :: tail) = (pre ++ a) ++ '\n' :: pyIndent pre tail := by
  unfold pyIndent
  rw [splitNL_append_newline a tail, splitNL_of_no_newline a ha_nl]
  rw [List.singleton_append, List.map_cons, if_pos ha_c]
  rw [joinNL_cons _ _ (by simpa using splitNL_ne_nil tail)]

theorem pyLstrip_append_spaces (pre x : Str) (hpre : ∀ c ∈ pre, isPyWhitespace c = true)
    (d : Char) (hx : x.head? = some d) (hd : isPyWhitespace d = false) :
    pyLstrip (pre ++ x) = x := by
  unfold pyLstrip
  rw [dropWhile_append_of_all _ pre x hpre]
  cases x with
  | nil => simp at hx
  | cons e es =>
    simp only [List.head?_cons, Option.some.injEq] at hx
    subst hx
    rw [List.dropWhile_cons, if_neg (by simp [hd])]

theorem pyIndent_tail (pre out ending : Str)
    (hend : ending = [] ∨ ending = ['\n']) :
    pyIndent pre (out ++ (ending ++ '\n' :: "\"\"\"".data)) =
      pyIndent pre out ++ ending ++ '\n' :: (pre ++ "\"\"\"".data) := by
  have hq_nl : '\n' ∉ "\"\"\"".data := by decide
  have hq_c : hasContent "\"\"\"".data = true := by decide
  have hmap_ne : (splitNL out).map
      (fun l => if hasContent l then pre ++ l else l) ≠ [] := by
    simpa using splitNL_ne_nil out
  cases hend with
  | inl h0 =>
    subst h0
    rw [List.nil_append]
    unfold pyIndent
    rw [splitNL_append_newline out "\"\"\"".data, splitNL_of_no_newline _ hq_nl]
    rw [List.map_append, List.map_cons, List.map_nil, if_pos hq_c]
    rw [joinNL_append _ _ hmap_ne (by simp)]
    simp [joinNL]
  | inr h1 =>
    subst h1
    have hsplit : splitNL (out ++ ('\n' :: ('\n' :: "\"\"\"".data))) =
        splitNL out ++ [[], "\"\"\"".data] := by
      rw [splitNL_append_newline out ('\n' :: "\"\"\"".data), splitNL_cons_newline,
        splitNL_of_no_newline _ hq_nl]
    unfold pyIndent
    rw [show ['\n'] ++ '\n' :: "\"\"\"".data = '\n' :: ('\n' :: "\"\"\"".data) from rfl,
      hsplit]
    rw [List.map_append]
    rw [show ([[], "\"\"\"".data] : List Str).map
        (fun l => if hasContent l then pre ++ l else l) =
        [[], pre ++ "\"\"\"".data] from by
      rw [List.map_cons, List.map_cons, List.map_nil, if_neg (by decide), if_pos hq_c]]
    rw [joinNL_append _ _ hmap_ne (by simp)]
    simp [joinNL]

theorem pyIndent_getLast? (pre out : Str) (d : Char) (h : out.getLast? = some d)
    (hd : isPyWhitespace d = false) : (pyIndent pre out).getLast? = some d := by
  have hdn : d ≠ '\n' := by
    intro hdd
    subst hdd
    simp [isPyWhitespace] at hd
  obtain ⟨L, hL1, hL2⟩ := splitNL_getLast out d h hdn
  have hLne : L ≠ [] := ne_nil_of_getLast?_eq L d hL2
  have hLc : hasContent L = true := hasContent_of_getLast? L d hL2 hd
  unfold pyIndent
  have hmap : ((splitNL out).map
      (fun l => if hasContent l then pre ++ l else l)).getLast? = some (pre ++ L) := by
    rw [List.getLast?_map, hL1]
    simp [hLc]
  rw [joinNL_getLast? _ (pre ++ L) hmap (by simp [hLne]),
    getLast?_append_right pre L hLne]
  exact hL2

/-- The replacement literal decomposes as original prefix, hardcoded three
double quotes, a newline, the indented output, the ending, and a newline
followed by the indented closing quotes. -/
theorem newDocValue_shape (indent_level : Nat) (pfx output ending : Str)
    (hpfx_nl : '\n' ∉ pfx) (hpfx_ws : ∀ c ∈ pfx, isPyWhitespace c = false)
    (hend : ending = [] ∨ ending = ['\n']) :
    newDocValue indent_level pfx output ending =
      (pfx ++ "\"\"\"".data) ++ '\n' ::
        (pyIndent (List.replicate indent_level ' ') output ++ ending ++
          '\n' :: (List.replicate indent_level ' ' ++ "\"\"\"".data)) := by
  unfold newDocValue
  have h1 : pfx ++ "\"\"\"\n".data ++ output ++ ending ++ "\n\"\"\"".data =
      (pfx ++ "\"\"\"".data) ++ '\n' :: (output ++ (ending ++ '\n' :: "\"\"\"".data)) := by
    rw [show "\"\"\"\n".data = "\"\"\"".data ++ ['\n'] from rfl,
      show "\n\"\"\"".data = '\n' :: "\"\"\"".data from rfl]
    simp
  rw [h1]
  have hpq_nl : '\n' ∉ pfx ++ "\"\"\"".data := by
    intro hmem
    rcases List.mem_append.mp hmem with hmem | hmem
    · exact hpfx_nl hmem
    · revert hmem; decide
  have hpq_c : hasContent (pfx ++ "\"\"\"".data) = true :=
    hasContent_append_right _ _ (by decide)
  rw [pyIndent_first_line _ _ _ hpq_nl hpq_c]
  rw [pyIndent_tail _ _ _ hend]
  have hws : ∀ c ∈ List.replicate indent_level ' ', isPyWhitespace c = true := by
    intro c hc
    rw [List.eq_of_mem_replicate hc]
    decide
  rw [List.append_assoc]
  cases pfx with
  | nil =>
    refine pyLstrip_append_spaces _ _ hws '"' ?_ (by decide)
    rfl
  | cons p ps =>
    refine pyLstrip_append_spaces _ _ hws p ?_ (hpfx_ws p (List.mem_cons_self p ps))
    rfl

theorem evaluatedValueOf_append (pfx q1 mid q2 : Str) (hq1 : q1.length = 3)
    (hq2 : q2.length = 3) :
    evaluatedValueOf pfx (pfx ++ q1 ++ mid ++ q2) = mid := by
  simp only [evaluatedValueOf]
  have h1 : pfx ++ q1 ++ mid ++ q2 = (pfx ++ q1) ++ (mid ++ q2) := by simp
  rw [h1]
  have hlen : (pfx ++ q1).length = pfx.length + 3 := by simp [hq1]
  rw [← hlen, List.drop_left]
  have h2 : (mid ++ q2).length - 3 = mid.length := by simp [hq2]
  rw [h2]
  exact List.take_left mid q2

theorem evaluatedValueOf_newDocValue (indent_level : Nat) (pfx output ending : Str)
    (hpfx_nl : '\n' ∉ pfx) (hpfx_ws : ∀ c ∈ pfx, isPyWhitespace c = false)
    (hend : ending = [] ∨ ending = ['\n']) :
    evaluatedValueOf pfx (newDocValue indent_level pfx output ending) =
      '\n' :: (pyIndent (List.replicate indent_level ' ') output ++ ending ++
        '\n' :: List.replicate indent_level ' ') := by
  rw [newDocValue_shape _ _ _ _ hpfx_nl hpfx_ws hend]
  have h1 : (pfx ++ "\"\"\"".data) ++ '\n' ::
      (pyIndent (List.replicate indent_level ' ') output ++ ending ++
        '\n' :: (List.replicate indent_level ' ' ++ "\"\"\"".data)) =
      pfx ++ "\"\"\"".data ++
        ('\n' :: (pyIndent (List.replicate indent_level ' ') output ++ ending ++
          '\n' :: List.replicate indent_level ' ')) ++ "\"\"\"".data := by
    simp
  rw [h1]
  exact evaluatedValueOf_append _ _ _ _ (by decide) (by decide)

theorem countTrailing_body (M ending : Str) (il : Nat) (d : Char)
    (hM : M.getLast? = some d) (hd : isPyWhitespace d = false)
    (hend : ending = [] ∨ ending = ['\n']) :
    countTrailing '\n'
      (rstripSpaces ('\n' :: (M ++ ending ++ '\n' :: List.replicate il ' '))) =
      1 + ending.length := by
  have hdn : (d == '\n') = false := by
    cases hb : d == '\n'
    · rfl
    · rw [beq_iff_eq] at hb
      subst hb
      simp [isPyWhitespace] at hd
  have h1 : '\n' :: (M ++ ending ++ '\n' :: List.replicate il ' ') =
      ('\n' :: (M ++ ending ++ ['\n'])) ++ List.replicate il ' ' := by simp
  have h2 : rstripSpaces ('\n' :: (M ++ ending ++ '\n' :: List.replicate il ' ')) =
      '\n' :: (M ++ ending ++ ['\n']) := by
    rw [h1]
    unfold rstripSpaces
    rw [rstripBy_append_all _ _ _
      (fun c hc => by rw [List.eq_of_mem_replicate hc]; rfl)]
    have hlast : ('\n' :: (M ++ ending ++ ['\n'])).getLast? = some '\n' := by
      rw [getLast?_cons_of_ne_nil _ _ (by simp),
        getLast?_append_right _ _ (by simp)]
      rfl
    exact rstripBy_eq_self_of_last _ _ '\n' hlast (by decide)
  rw [h2]
  obtain ⟨Mr, hMr⟩ : ∃ Mr, M.reverse = d :: Mr := by
    have hh : M.reverse.head? = some d := by rw [List.head?_reverse]; exact hM
    cases hrev : M.reverse with
    | nil => rw [hrev] at hh; simp at hh
    | cons e es =>
      rw [hrev] at hh
      simp only [List.head?_cons, Option.some.injEq] at hh
      exact ⟨es, by rw [hh]⟩
  unfold countTrailing
  cases hend with
  | inl h0 =>
    subst h0
    have hrev : ('\n' :: (M ++ [] ++ ['\n'])).reverse = '\n' :: d :: (Mr ++ ['\n']) := by
      simp [hMr]
    rw [hrev]
    simp [List.takeWhile_cons, hdn]
  | inr h1n =>
    subst h1n
    have hrev : ('\n' :: (M ++ ['\n'] ++ ['\n'])).reverse =
        '\n' :: '\n' :: d :: (Mr ++ ['\n']) := by
      simp [hMr]
    rw [hrev]
    simp [List.takeWhile_cons, hdn]

/-- In the non-error case, a misformatted verdict always carries the rebuilt
literal for the rendered output and the policy ending. -/
theorem leave_SimpleString_misformatted (render : Nat → Str → Str)
    (errC : Nat → Str → Nat) (P : Bool) (ll il : Nat) (pfx value : Str)
    (r : DocstringResult)
    (hres : leave_SimpleString render errC P ll il pfx value = Except.ok r)
    (hmis : r.misformatted = true) :
    r.value = newDocValue il pfx
        (pyRstrip (render (ll - il) (docSource il (evaluatedValueOf pfx value))))
        (if (pySplitlines (pyRstrip (render (ll - il)
              (docSource il (evaluatedValueOf pfx value))))).length == 1
         then [] else if P then ['\n'] else []) := by
  simp only [leave_SimpleString] at hres
  by_cases hw : ll < il + 1
  · rw [if_pos hw] at hres
    exact absurd hres (by simp)
  · rw [if_neg hw] at hres
    split at hres
    next hs =>
      split at hres
      next hsrc =>
        simp only [Except.ok.injEq] at hres
        subst hres
        simp at hmis
      next hsrc =>
        simp only [Except.ok.injEq] at hres
        subst hres
        rw [if_pos hs]
    next hs =>
      split at hres
      next hP =>
        split at hres
        next hsrc =>
          simp only [Except.ok.injEq] at hres
          subst hres
          simp at hmis
        next hsrc =>
          simp only [Except.ok.injEq] at hres
          subst hres
          rw [if_neg hs, if_pos hP]
      next hP =>
        split at hres
        next hsrc =>
          simp only [Except.ok.injEq] at hres
          subst hres
          simp at hmis
        next hsrc =>
          simp only [Except.ok.injEq] at hres
          subst hres
          rw [if_neg hs, if_neg hP]

/-- In the non-error case, matching content with a wrong trailing-newline
count still lands in the misformatted branch. -/
theorem leave_SimpleString_wrong_ending (render : Nat → Str → Str)
    (errC : Nat → Str → Nat) (P : Bool) (ll il : Nat) (pfx value : Str)
    (hw : il + 1 ≤ ll)
    (hsrc : docSource il (evaluatedValueOf pfx value) =
      pyRstrip (render (ll - il) (docSource il (evaluatedValueOf pfx value))))
    (hend : (if (pySplitlines (pyRstrip (render (ll - il)
          (docSource il (evaluatedValueOf pfx value))))).length == 1
        then countTrailing '\n' (rstripSpaces (evaluatedValueOf pfx value)) == 0
        else (if P then 2 else 1) ==
          countTrailing '\n' (rstripSpaces (evaluatedValueOf pfx value))) = false) :
    ∃ r, leave_SimpleString render errC P ll il pfx value = Except.ok r ∧
      r.misformatted = true := by
  simp only [leave_SimpleString]
  rw [if_neg (by omega)]
  rw [if_neg (by
    intro hc
    rw [hend] at hc
    simp at hc)]
  exact ⟨_, rfl, rfl⟩

theorem not_ws_of_isAlpha (c : Char) (h : c.isAlpha = true) :
    isPyWhitespace c = false := by
  cases hw : isPyWhitespace c
  · rfl
  · exfalso
    simp only [isPyWhitespace, Bool.or_eq_true, beq_iff_eq] at hw
    have hcs : c = ' ' ∨ c = '\t' ∨ c = '\n' ∨ c = '\x0d' ∨ c = '\x0b' ∨ c = '\x0c' := by
      tauto
    rcases hcs with h1 | h1 | h1 | h1 | h1 | h1 <;> (subst h1; exact absurd h (by decide))

theorem not_newline_mem_of_all_isAlpha (pfx : Str)
    (h : ∀ c ∈ pfx, c.isAlpha = true) : '\n' ∉ pfx := by
  intro hm
  exact absurd (h '\n' hm) (by decide)

/-! ### Claims C1, C2, C3 -/

/-- Claim C1: the spec asserts idempotence — a first pass that reports the file
correctly formatted yields changed == false, and a second pass on the output of
the first pass reports changed == false, in particular for a single-line
docstring rewritten into opening quotes, newline, body, newline, closing
quotes.  Evaluating the code at the failing input: the first pass rewrites the
single-line module docstring containing Hello-double-space-world (indent 0,
line length 88, trailing-blank-line on) into a literal whose body starts with
a newline; the second pass dedents that body to newline-plus-output, which can
never equal the rendered output, and its trailing-newline count is 1 instead of
the 0 required for a single-line render — so the second pass reports the
docstring as misformatted (changed == true) again, while producing the very
same literal (a textual fixed point that is never reported clean). -/
theorem c1_second_pass_reports_changed :
    leave_SimpleString renderModel zeroErrEngine true 88 0 []
        "\"\"\"Hello  world\"\"\"".data =
      Except.ok ⟨true, 0, "\"\"\"\nHello world\n\"\"\"".data⟩ ∧
    leave_SimpleString renderModel zeroErrEngine true 88 0 []
        "\"\"\"\nHello world\n\"\"\"".data =
      Except.ok ⟨true, 0, "\"\"\"\nHello world\n\"\"\"".data⟩ :=
  ⟨rfl, rfl⟩

/-- Claim C2 counterexample: a docstring quoted with three single quotes that
is judged misformatted is replaced by a literal that opens with three double
quotes — the original quote style is not preserved, contradicting the claim
that the replacement keeps the same quote style. -/
theorem c2_quote_style_not_preserved :
    leave_SimpleString renderModel zeroErrEngine true 88 0 []
        (tripleSQ ++ "Hello  world".data ++ tripleSQ) =
      Except.ok ⟨true, 0, "\"\"\"\nHello world\n\"\"\"".data⟩ ∧
    ("\"\"\"\nHello world\n\"\"\"".data).take 3 ≠ tripleSQ :=
  ⟨rfl, by decide⟩

/-- Claim C2 (amended): the replacement literal keeps the original opening
prefix but always uses three double quotes as its quote style, and its body is
a newline, the re-indented rendered output, the policy ending, and a final
newline before the indented closing quotes; on the spec's example (two-space
indented module docstring at width 20 with trailing-blank-line enabled) the
code produces the literal with a leading newline after the opening quotes and
no trailing blank line (the render is single-line), with changed == true. -/
theorem c2_replacement_quotes_hardcoded (render : Nat → Str → Str)
    (errC : Nat → Str → Nat) (P : Bool) (ll il : Nat) (pfx value : Str)
    (r : DocstringResult) (hpfx : ∀ c ∈ pfx, c.isAlpha = true)
    (hres : leave_SimpleString render errC P ll il pfx value = Except.ok r)
    (hmis : r.misformatted = true) :
    r.value.take (pfx.length + 3) = pfx ++ "\"\"\"".data ∧
    leave_SimpleString renderModel zeroErrEngine true 20 2 []
        "\"\"\"Hello   world\n\"\"\"".data =
      Except.ok ⟨true, 0, "\"\"\"\n  Hello world\n  \"\"\"".data⟩ := by
  constructor
  · have hvalue :=
      leave_SimpleString_misformatted render errC P ll il pfx value r hres hmis
    have hws : ∀ c ∈ pfx, isPyWhitespace c = false :=
      fun c hc => not_ws_of_isAlpha c (hpfx c hc)
    have hnl := not_newline_mem_of_all_isAlpha pfx hpfx
    have hend : (if (pySplitlines (pyRstrip (render (ll - il)
          (docSource il (evaluatedValueOf pfx value))))).length == 1
        then ([] : Str) else if P then ['\n'] else []) = [] ∨
        (if (pySplitlines (pyRstrip (render (ll - il)
          (docSource il (evaluatedValueOf pfx value))))).length == 1
        then ([] : Str) else if P then ['\n'] else []) = ['\n'] := by
      split
      · exact Or.inl rfl
      · split
        · exact Or.inr rfl
        · exact Or.inl rfl
    rw [hvalue, newDocValue_shape il pfx _ _ hnl hws hend]
    have hlen : (pfx ++ "\"\"\"".data).length = pfx.length + 3 := by simp
    rw [← hlen]
    exact List.take_left _ _
  · rfl

/-- Witness for claim C2's amended theorem at a concrete input: the raw
r-prefixed docstring containing Hello-double-space-world keeps its prefix and
receives hardcoded double quotes. -/
theorem c2_replacement_quotes_hardcoded_witness :
    ("r\"\"\"\nHello world\n\"\"\"".data).take ("r".data.length + 3) =
      "r".data ++ "\"\"\"".data ∧
    leave_SimpleString renderModel zeroErrEngine true 20 2 []
        "\"\"\"Hello   world\n\"\"\"".data =
      Except.ok ⟨true, 0, "\"\"\"\n  Hello world\n  \"\"\"".data⟩ :=
  c2_replacement_quotes_hardcoded renderModel zeroErrEngine true 88 0 "r".data
    "r\"\"\"Hello  world\"\"\"".data ⟨true, 0, "r\"\"\"\nHello world\n\"\"\"".data⟩
    (by decide) rfl rfl

/-- Claim C3: trailing-blank-line law.  For every docstring the transformer
rewrites, the produced literal's body carries exactly 0 trailing blank lines
when the render is single-line, else 1 when the trailing-blank-line policy is
on and 0 when it is off, independent of the original literal; and a docstring
whose content matches the rendering but whose original trailing-newline count
violates the policy is still marked changed. -/
theorem c3_trailing_blank_law (render : Nat → Str → Str) (errC : Nat → Str → Nat)
    (P : Bool) (ll il : Nat) (pfx value : Str)
    (hpfx : ∀ c ∈ pfx, c.isAlpha = true) (hw : il + 1 ≤ ll)
    (hout : pyRstrip (render (ll - il) (docSource il (evaluatedValueOf pfx value))) ≠ []) :
    (∀ r, leave_SimpleString render errC P ll il pfx value = Except.ok r →
      r.misformatted = true →
      trailingBlankCount (evaluatedValueOf pfx r.value) =
        if (pySplitlines (pyRstrip (render (ll - il)
            (docSource il (evaluatedValueOf pfx value))))).length == 1 then 0
        else if P then 1 else 0) ∧
    (docSource il (evaluatedValueOf pfx value) =
        pyRstrip (render (ll - il) (docSource il (evaluatedValueOf pfx value))) →
      (if (pySplitlines (pyRstrip (render (ll - il)
            (docSource il (evaluatedValueOf pfx value))))).length == 1
        then countTrailing '\n' (rstripSpaces (evaluatedValueOf pfx value)) == 0
        else (if P then 2 else 1) ==
          countTrailing '\n' (rstripSpaces (evaluatedValueOf pfx value))) = false →
      ∃ r, leave_SimpleString render errC P ll il pfx value = Except.ok r ∧
        r.misformatted = true) := by
  constructor
  · intro r hres hmis
    have hvalue :=
      leave_SimpleString_misformatted render errC P ll il pfx value r hres hmis
    have hws : ∀ c ∈ pfx, isPyWhitespace c = false :=
      fun c hc => not_ws_of_isAlpha c (hpfx c hc)
    have hnl := not_newline_mem_of_all_isAlpha pfx hpfx
    have hend : (if (pySplitlines (pyRstrip (render (ll - il)
          (docSource il (evaluatedValueOf pfx value))))).length == 1
        then ([] : Str) else if P then ['\n'] else []) = [] ∨
        (if (pySplitlines (pyRstrip (render (ll - il)
          (docSource il (evaluatedValueOf pfx value))))).length == 1
        then ([] : Str) else if P then ['\n'] else []) = ['\n'] := by
      split
      · exact Or.inl rfl
      · split
        · exact Or.inr rfl
        · exact Or.inl rfl
    rw [hvalue, evaluatedValueOf_newDocValue il pfx _ _ hnl hws hend]
    obtain ⟨d, hd⟩ : ∃ d, (pyRstrip (render (ll - il)
        (docSource il (evaluatedValueOf pfx value)))).getLast? = some d := by
      cases hgl : (pyRstrip (render (ll - il)
          (docSource il (evaluatedValueOf pfx value)))).getLast? with
      | none => exact absurd (List.getLast?_eq_none_iff.mp hgl) hout
      | some d => exact ⟨d, rfl⟩
    have hdws : isPyWhitespace d = false := rstripBy_getLast? _ _ d hd
    have hM := pyIndent_getLast? (List.replicate il ' ') _ d hd hdws
    unfold trailingBlankCount
    rw [countTrailing_body _ _ il d hM hdws hend]
    by_cases hC : ((pySplitlines (pyRstrip (render (ll - il)
        (docSource il (evaluatedValueOf pfx value))))).length == 1) = true
    · simp [hC]
    · cases P <;> simp [hC]
  · intro hsrc hend2
    exact leave_SimpleString_wrong_ending render errC P ll il pfx value hw hsrc hend2

/-- Witness for claim C3 at a concrete input: a two-paragraph module docstring
whose content already matches the rendering but lacks the required trailing
blank lines is marked changed. -/
theorem c3_trailing_blank_law_witness :
    ∃ r, leave_SimpleString renderModel zeroErrEngine true 88 0 []
        "\"\"\"Hello\n\nworld\"\"\"".data = Except.ok r ∧
      r.misformatted = true := by
  have h := c3_trailing_blank_law renderModel zeroErrEngine true 88 0 []
    "\"\"\"Hello\n\nworld\"\"\"".data (by decide) (by decide) (by decide)
  exact h.2 (by decide) (by decide)

/-! ### Lemmas about the completion loop, the cache and the visitor -/

theorem runStep_files_to_cache (check raw : Bool) (st : RunState)
    (p : FileId × TaskResult) :
    (runStep check raw st p).files_to_cache = st.files_to_cache ∨
    ((runStep check raw st p).files_to_cache = st.files_to_cache ++ [p.1] ∧
      ∃ m, p.2 = TaskResult.completed m 0) := by
  obtain ⟨f, t⟩ := p
  cases t with
  | cancelled => exact Or.inl rfl
  | raised msg => exact Or.inl rfl
  | completed m e =>
    simp only [runStep]
    by_cases he : (((!(m && raw)) || (check && !m)) && e == 0) = true
    · rw [if_pos he]
      refine Or.inr ⟨?_, m, ?_⟩
      · cases m <;> simp
      · simp only [Bool.and_eq_true, beq_iff_eq] at he
        rw [he.2]
    · rw [if_neg he]
      cases m <;> simp

theorem runStep_error_count (check raw : Bool) (st : RunState)
    (p : FileId × TaskResult) :
    (runStep check raw st p).error_count = st.error_count + taskErrors p.2 := by
  obtain ⟨f, t⟩ := p
  cases t with
  | cancelled => rfl
  | raised msg => rfl
  | completed m e =>
    simp only [runStep, taskErrors]
    split <;> cases m <;> simp

theorem runFold_error_count (check raw : Bool)
    (results : List (FileId × TaskResult)) (st0 : RunState) :
    (results.foldl (runStep check raw) st0).error_count =
      st0.error_count + (results.map (fun p => taskErrors p.2)).sum := by
  induction results generalizing st0 with
  | nil => simp
  | cons p rest ih =>
    rw [List.foldl_cons, ih, runStep_error_count]
    simp [Nat.add_assoc]

theorem runFold_files_mono (check raw : Bool)
    (results : List (FileId × TaskResult)) (st0 : RunState) (f : FileId)
    (hf : f ∈ st0.files_to_cache) :
    f ∈ (results.foldl (runStep check raw) st0).files_to_cache := by
  induction results generalizing st0 with
  | nil => exact hf
  | cons p rest ih =>
    rw [List.foldl_cons]
    apply ih
    rcases runStep_files_to_cache check raw st0 p with h | ⟨h, _⟩
    · rw [h]; exact hf
    · rw [h]; exact List.mem_append_left _ hf

theorem runFold_files_sound (check raw : Bool)
    (results : List (FileId × TaskResult)) (st0 : RunState) (f : FileId)
    (hf : f ∈ (results.foldl (runStep check raw) st0).files_to_cache) :
    f ∈ st0.files_to_cache ∨ ∃ m, (f, TaskResult.completed m 0) ∈ results := by
  induction results generalizing st0 with
  | nil => exact Or.inl hf
  | cons p rest ih =>
    rw [List.foldl_cons] at hf
    rcases ih (runStep check raw st0 p) hf with hin | ⟨m, hm⟩
    · rcases runStep_files_to_cache check raw st0 p with h | ⟨h, m, hm⟩
      · rw [h] at hin
        exact Or.inl hin
      · rw [h] at hin
        rcases List.mem_append.mp hin with hin | hin
        · exact Or.inl hin
        · right
          refine ⟨m, ?_⟩
          have hfp : f = p.1 := by simpa using hin
          rw [hfp, ← hm]
          exact List.mem_cons_self p rest
    · exact Or.inr ⟨m, List.mem_cons_of_mem p hm⟩

theorem runFold_files_complete (check raw : Bool)
    (results : List (FileId × TaskResult)) (st0 : RunState) (f : FileId)
    (hf : (f, TaskResult.completed false 0) ∈ results) :
    f ∈ (results.foldl (runStep check raw) st0).files_to_cache := by
  induction results generalizing st0 with
  | nil => simp at hf
  | cons p rest ih =>
    rw [List.foldl_cons]
    rcases List.mem_cons.mp hf with hp | hp
    · apply runFold_files_mono
      rw [← hp]
      simp [runStep]
    · exact ih (runStep check raw st0 p) hp

theorem cacheLookup_cons_ne (x : FileId × Nat) (cache : Cache) (f : FileId)
    (h : x.1 ≠ f) : cacheLookup (x :: cache) f = cacheLookup cache f := by
  simp [cacheLookup, List.find?_cons, h]

theorem cacheLookup_write_cache_not_mem (files : List FileId) (cache : Cache)
    (fp : FileId → Nat) (f : FileId) (h : f ∉ files) :
    cacheLookup (write_cache cache fp files) f = cacheLookup cache f := by
  induction files generalizing cache with
  | nil => rfl
  | cons x xs ih =>
    have hx : x ≠ f := fun hxf => h (hxf ▸ List.mem_cons_self x xs)
    have hxs : f ∉ xs := fun hm => h (List.mem_cons_of_mem x hm)
    show cacheLookup (write_cache ((x, fp x) :: cache) fp xs) f = cacheLookup cache f
    rw [ih ((x, fp x) :: cache) hxs, cacheLookup_cons_ne _ _ _ hx]

theorem cacheLookup_write_cache_mem (files : List FileId) (cache : Cache)
    (fp : FileId → Nat) (f : FileId) (h : f ∈ files) :
    cacheLookup (write_cache cache fp files) f = some (fp f) := by
  induction files generalizing cache with
  | nil => simp at h
  | cons x xs ih =>
    show cacheLookup (write_cache ((x, fp x) :: cache) fp xs) f = some (fp f)
    by_cases hxs : f ∈ xs
    · exact ih ((x, fp x) :: cache) hxs
    · have hx : x = f := by
        rcases List.mem_cons.mp h with hp | hp
        · exact hp.symm
        · exact absurd hp hxs
      rw [cacheLookup_write_cache_not_mem xs _ fp f hxs]
      subst hx
      simp [cacheLookup, List.find?_cons]

theorem runVisitor_names_length (evs : List TravEvent) (st : VisitorState)
    (hbal : ∀ pre suf, evs = pre ++ suf →
      countExits pre + 1 ≤ st.object_names.length + countEnters pre) :
    (runVisitor st evs).1.object_names.length + countExits evs =
      st.object_names.length + countEnters evs := by
  induction evs generalizing st with
  | nil => simp [runVisitor, countEnters, countExits]
  | cons e es ih =>
    have hstep : (runVisitor st (e :: es)).1 =
        (runVisitor (stepVisitor st e).1 es).1 := rfl
    have hkey : (stepVisitor st e).1.object_names.length + countExits [e] =
        st.object_names.length + countEnters [e] := by
      cases e with
      | visitModule => simp [stepVisitor, countEnters, countExits]
      | visitClassDef n => simp [stepVisitor, countEnters, countExits]
      | leaveClassDef =>
        have h2 := hbal [TravEvent.leaveClassDef] es rfl
        simp only [countExits, countEnters] at h2 ⊢
        simp only [stepVisitor, List.length_dropLast]
        omega
      | visitFunctionDef n => simp [stepVisitor, countEnters, countExits]
      | leaveFunctionDef =>
        have h2 := hbal [TravEvent.leaveFunctionDef] es rfl
        simp only [countExits, countEnters] at h2 ⊢
        simp only [stepVisitor, List.length_dropLast]
        omega
      | visitAssignTarget n => simp [stepVisitor, countEnters, countExits]
      | leaveString isDoc =>
        cases isDoc with
        | false => simp [stepVisitor, countEnters, countExits]
        | true =>
          simp only [countEnters, countExits]
          cases hla : st.last_assign <;> simp [stepVisitor, hla]
    have hshift : ∀ pre suf, es = pre ++ suf →
        countExits pre + 1 ≤ (stepVisitor st e).1.object_names.length +
          countEnters pre := by
      intro pre suf hsplit
      have h2 := hbal (e :: pre) suf (by rw [hsplit]; rfl)
      simp only [countExits, countEnters] at h2 hkey
      omega
    have hih := ih (stepVisitor st e).1 hshift
    rw [hstep]
    simp only [countExits, countEnters] at hkey ⊢
    omega

theorem exitOf_ne_zero (check : Bool) (mfs : List FileId) (ec : Nat) :
    exitOf check mfs ec ≠ 0 ↔ ((check = true ∧ mfs ≠ []) ∨ 0 < ec) := by
  unfold exitOf
  split <;> simp_all

theorem snd_eq_of_nodup_keys (l : List (FileId × TaskResult))
    (hnd : (l.map Prod.fst).Nodup) (a : FileId) (b c : TaskResult)
    (hb : (a, b) ∈ l) (hc : (a, c) ∈ l) : b = c := by
  induction l with
  | nil => simp at hb
  | cons x xs ih =>
    simp only [List.map_cons, List.nodup_cons] at hnd
    rcases List.mem_cons.mp hb with hb1 | hb1 <;>
      rcases List.mem_cons.mp hc with hc1 | hc1
    · exact congrArg Prod.snd (hb1.trans hc1.symm)
    · exfalso
      apply hnd.1
      have ha : x.1 = a := by rw [← hb1]
      rw [ha]
      exact (by simpa using List.mem_map_of_mem Prod.fst hc1)
    · exfalso
      apply hnd.1
      have ha : x.1 = a := by rw [← hc1]
      rw [ha]
      exact (by simpa using List.mem_map_of_mem Prod.fst hb1)
    · exact ih hnd.2 hb1 hc1

theorem main_multi_eq (check raw_output : Bool) (cache0 : Cache)
    (fp : FileId → Nat) (outcome : FileId → Except Str (Bool × Nat))
    (files : List FileId) (hstdin : "-" ∉ files) (h2 : 2 ≤ files.length) :
    main check raw_output none cache0 fp outcome files =
      Except.ok (runMulti check raw_output cache0 fp outcome files) := by
  unfold main
  rw [if_neg (fun hc => hstdin hc.1)]
  rw [if_neg (by omega)]

/-! ### Claims C4 through C10 -/

/-- Claim C4: cache commit safety.  A file enters the cache-write batch only
if its task completed with zero errors (tasks that raised or were cancelled
never contribute); the run issues at most one cache write, which is exactly
the one nonempty batched commit after the completion loop — never per-file
and never when the eligible set is empty. -/
theorem c4_cache_commit_safety (check raw_output : Bool)
    (results : List (FileId × TaskResult)) :
    (∀ f ∈ (_run_formatter check raw_output results).1.files_to_cache,
      ∃ m, (f, TaskResult.completed m 0) ∈ results) ∧
    (_run_formatter check raw_output results).2.length ≤ 1 ∧
    ((_run_formatter check raw_output results).1.files_to_cache = [] →
      (_run_formatter check raw_output results).2 = []) ∧
    (∀ batch ∈ (_run_formatter check raw_output results).2,
      batch = (_run_formatter check raw_output results).1.files_to_cache ∧
        batch ≠ []) := by
  refine ⟨?_, ?_, ?_, ?_⟩
  · intro f hf
    rcases runFold_files_sound check raw_output results initRunState f hf with h | h
    · simp [initRunState] at h
    · exact h
  · simp only [_run_formatter]
    split <;> simp
  · intro h
    simp only [_run_formatter] at h ⊢
    simp [h]
  · intro batch hb
    simp only [_run_formatter] at hb ⊢
    split at hb
    · simp at hb
    · next hne =>
      simp only [List.mem_singleton] at hb
      subst hb
      refine ⟨rfl, ?_⟩
      simpa using hne

/-- Witness for claim C4 at a concrete completion order mixing a clean
completion, a raised task and a cancellation. -/
theorem c4_cache_commit_safety_witness :
    (∀ f ∈ (_run_formatter false false
        [("a.py", TaskResult.completed false 0),
         ("b.py", TaskResult.raised "boom".data),
         ("c.py", TaskResult.cancelled)]).1.files_to_cache,
      ∃ m, (f, TaskResult.completed m 0) ∈
        ([("a.py", TaskResult.completed false 0),
          ("b.py", TaskResult.raised "boom".data),
          ("c.py", TaskResult.cancelled)] : List (FileId × TaskResult))) ∧
    (_run_formatter false false
        [("a.py", TaskResult.completed false 0),
         ("b.py", TaskResult.raised "boom".data),
         ("c.py", TaskResult.cancelled)]).2.length ≤ 1 ∧
    ((_run_formatter false false
        [("a.py", TaskResult.completed false 0),
         ("b.py", TaskResult.raised "boom".data),
         ("c.py", TaskResult.cancelled)]).1.files_to_cache = [] →
      (_run_formatter false false
        [("a.py", TaskResult.completed false 0),
         ("b.py", TaskResult.raised "boom".data),
         ("c.py", TaskResult.cancelled)]).2 = []) ∧
    (∀ batch ∈ (_run_formatter false false
        [("a.py", TaskResult.completed false 0),
         ("b.py", TaskResult.raised "boom".data),
         ("c.py", TaskResult.cancelled)]).2,
      batch = (_run_formatter false false
        [("a.py", TaskResult.completed false 0),
         ("b.py", TaskResult.raised "boom".data),
         ("c.py", TaskResult.cancelled)]).1.files_to_cache ∧ batch ≠ []) :=
  c4_cache_commit_safety false false
    [("a.py", TaskResult.completed false 0),
     ("b.py", TaskResult.raised "boom".data),
     ("c.py", TaskResult.cancelled)]

/-- Claim C5 counterexample: a run whose file set contains exactly one file
never touches the Fingerprint Cache — `main` performs no partition and no
commit even though the single file completes with error_count == 0 and would
be eligible. -/
theorem c5_single_file_run_bypasses_cache :
    main false false none [] (fun _ => 0) (fun _ => Except.ok (false, 0))
        ["a.py"] =
      Except.ok ⟨0, ["a.py"], [], 0, [], [], [], 0⟩ := rfl

/-- Claim C5 (amended): a run with at least two files partitions the file set
through the cache into todo and skip before scheduling, schedules exactly
todo, and commits eligible files in one batch afterwards; a subsequent run
with at least two files over unchanged inputs (same fingerprints) partitions
every committed file into skip and schedules none of them.  A run with a
single file bypasses the cache entirely: no partition and no commit. -/
theorem c5_cache_partition_multi_file (check raw_output check2 raw2 : Bool)
    (cache0 : Cache) (fp : FileId → Nat)
    (outcome outcome2 : FileId → Except Str (Bool × Nat))
    (files files2 : List FileId) (res res2 : MainOutcome)
    (hstdin : "-" ∉ files) (h2 : 2 ≤ files.length)
    (hrun : main check raw_output none cache0 fp outcome files = Except.ok res)
    (hstdin2 : "-" ∉ files2) (h22 : 2 ≤ files2.length)
    (hrun2 : main check2 raw2 none res.cache fp outcome2 files2 = Except.ok res2) :
    res.scheduled = (gen_todo_list cache0 fp files).1 ∧
    res.skipped = (gen_todo_list cache0 fp files).2 ∧
    res.partitions = 1 ∧
    (∀ batch ∈ res.commits, ∀ f ∈ batch, f ∈ files2 →
      f ∈ res2.skipped ∧ f ∉ res2.scheduled) ∧
    (∀ (ck1 ro1 : Bool) (c1 : Cache) (fp1 : FileId → Nat)
        (out1 : FileId → Except Str (Bool × Nat)) (f1 : FileId)
        (res1 : MainOutcome),
      main ck1 ro1 none c1 fp1 out1 [f1] = Except.ok res1 →
      res1.partitions = 0 ∧ res1.commits = []) := by
  rw [main_multi_eq check raw_output cache0 fp outcome files hstdin h2] at hrun
  rw [main_multi_eq check2 raw2 res.cache fp outcome2 files2 hstdin2 h22] at hrun2
  simp only [Except.ok.injEq] at hrun hrun2
  subst hrun
  refine ⟨rfl, rfl, rfl, ?_, ?_⟩
  · intro batch hbatch f hfbatch hf2
    simp only [runMulti] at hbatch
    split at hbatch
    · simp at hbatch
    · next hne =>
      simp only [List.mem_singleton] at hbatch
      subst hbatch
      have hcache : (runMulti check raw_output cache0 fp outcome files).cache =
          write_cache cache0 fp
            ((((gen_todo_list cache0 fp files).1.map (fun f =>
              (f, match outcome f with
                  | .ok pr => TaskResult.completed pr.1 pr.2
                  | .error msg => TaskResult.raised msg))).foldl
              (runStep check raw_output) initRunState).files_to_cache) := by
        simp only [runMulti]
        rw [if_neg hne]
      have hlook : cacheLookup (runMulti check raw_output cache0 fp outcome files).cache f =
          some (fp f) := by
        rw [hcache]
        exact cacheLookup_write_cache_mem _ _ fp f hfbatch
      subst hrun2
      obtain ⟨C, hC, hlookC⟩ :
          ∃ C, (runMulti check raw_output cache0 fp outcome files).cache = C ∧
            cacheLookup C f = some (fp f) := ⟨_, rfl, hlook⟩
      rw [hC]
      constructor
      · simp only [runMulti, gen_todo_list, List.mem_filter]
        exact ⟨hf2, by simp [hlookC]⟩
      · simp only [runMulti, gen_todo_list, List.mem_filter]
        intro hcontra
        have h2c := hcontra.2
        simp [hlookC] at h2c
  · intro ck1 ro1 c1 fp1 out1 f1 res1 hres1
    unfold main at hres1
    rw [if_neg (by simp)] at hres1
    simp only at hres1
    rw [if_pos (by simp)] at hres1
    cases ho : out1 f1 with
    | error e => rw [ho] at hres1; simp at hres1
    | ok pr =>
      obtain ⟨m, ec⟩ := pr
      rw [ho] at hres1
      simp only [Except.ok.injEq] at hres1
      subst hres1
      exact ⟨rfl, rfl⟩

/-- Witness for claim C5's amended theorem: two consecutive two-file runs with
all files formatted cleanly; the second run skips both committed files. -/
theorem c5_cache_partition_multi_file_witness :
    "a.py" ∈ (runMulti false false
        (runMulti false false [] (fun _ => 7)
          (fun _ => Except.ok (false, 0)) ["a.py", "b.py"]).cache
        (fun _ => 7) (fun _ => Except.ok (false, 0))
        ["a.py", "b.py"]).skipped ∧
    "a.py" ∉ (runMulti false false
        (runMulti false false [] (fun _ => 7)
          (fun _ => Except.ok (false, 0)) ["a.py", "b.py"]).cache
        (fun _ => 7) (fun _ => Except.ok (false, 0))
        ["a.py", "b.py"]).scheduled := by
  have h := c5_cache_partition_multi_file false false false false [] (fun _ => 7)
    (fun _ => Except.ok (false, 0)) (fun _ => Except.ok (false, 0))
    ["a.py", "b.py"] ["a.py", "b.py"]
    (runMulti false false [] (fun _ => 7)
      (fun _ => Except.ok (false, 0)) ["a.py", "b.py"])
    (runMulti false false
      (runMulti false false [] (fun _ => 7)
        (fun _ => Except.ok (false, 0)) ["a.py", "b.py"]).cache
      (fun _ => 7) (fun _ => Except.ok (false, 0)) ["a.py", "b.py"])
    (by decide) (by decide) (main_multi_eq _ _ _ _ _ _ (by decide) (by decide))
    (by decide) (by decide) (main_multi_eq _ _ _ _ _ _ (by decide) (by decide))
  exact h.2.2.2.1 ["a.py", "b.py"] (by decide) "a.py" (by decide) (by decide)

/-- Claim C6 counterexample: `_format_file` opens and reads the file before
its `try` block, so an I/O error from an unreadable file raises past the Job
instead of being returned as a `(misformatted, error_count)` pair. -/
theorem c6_read_error_escapes_job :
    _format_file ⟨"locked.py", ".py", Except.error "Permission denied".data⟩
        "rst" false (fun _ => Except.ok (false, 0))
        (fun _ => Except.ok (false, 0)) =
      Except.error "Permission denied".data := rfl

/-- Claim C6 (amended): once the file has been read, `_format_file` always
returns a pair, and any failure inside the processing step is caught at the
Job boundary and converted into `(false, 1)`; an I/O error while reading,
however, raises past `_format_file` and is handled by the orchestrator, which
counts one error for the raised task and never appends such a file to the
cache batch. -/
theorem c6_job_boundary_amended :
    (∀ (file : SrcFile) (ft : String) (it : Bool)
        (pPy pRst : String → Except Str (Bool × Nat)) (s : String),
      file.readResult = Except.ok s →
      ∃ pr, _format_file file ft it pPy pRst = Except.ok pr) ∧
    (∀ (file : SrcFile) (ft : String) (it : Bool)
        (pPy pRst : String → Except Str (Bool × Nat)) (s : String) (e : Str),
      file.readResult = Except.ok s → file.suffix = ".py" →
      pPy s = Except.error e →
      _format_file file ft it pPy pRst = Except.ok (false, 1)) ∧
    (∀ (check raw : Bool) (results : List (FileId × TaskResult)) (f : FileId)
        (msg : Str), (f, TaskResult.raised msg) ∈ results →
      ((results.map Prod.fst).Nodup →
        f ∉ (_run_formatter check raw results).1.files_to_cache) ∧
      1 ≤ (_run_formatter check raw results).1.error_count) := by
  refine ⟨?_, ?_, ?_⟩
  · intro file ft it pPy pRst s hread
    simp only [_format_file, hread]
    cases hA : (if file.suffix == ".py" || (ft == "py" && file.name == "-") then
        pPy s
      else if (file.suffix ∈ (if it then [".rst", ".txt"] else [".rst"]))
          || file.name == "-" then pRst s
      else Except.ok (false, 0)) with
    | error e => exact ⟨(false, 1), rfl⟩
    | ok pr => exact ⟨pr, rfl⟩
  · intro file ft it pPy pRst s e hread hsfx herr
    simp only [_format_file, hread]
    have hcond : (file.suffix == ".py" || (ft == "py" && file.name == "-")) = true := by
      simp [hsfx]
    rw [if_pos hcond, herr]
  · intro check raw results f msg hmem
    constructor
    · intro hnd hf
      obtain ⟨m, hm⟩ :
          ∃ m, (f, TaskResult.completed m 0) ∈ results := by
        rcases runFold_files_sound check raw results initRunState f hf with h | h
        · simp [initRunState] at h
        · exact h
      have := snd_eq_of_nodup_keys results hnd f (TaskResult.raised msg)
        (TaskResult.completed m 0) hmem hm
      simp at this
    · have hsum := runFold_error_count check raw results initRunState
      have h1 : (1 : Nat) ∈ results.map (fun p => taskErrors p.2) := by
        have := List.mem_map_of_mem (fun p => taskErrors p.2) hmem
        simpa [taskErrors] using this
      have hle : 1 ≤ (results.map (fun p => taskErrors p.2)).sum :=
        List.single_le_sum (fun x _ => Nat.zero_le x) 1 h1
      show 1 ≤ (results.foldl (runStep check raw) initRunState).error_count
      rw [hsum]
      simpa [initRunState] using hle

/-- Witness for claim C6's amended theorem at concrete jobs: a readable file
returns a pair, a parse failure is converted to one counted error, and a
raised task is counted and excluded from the cache batch. -/
theorem c6_job_boundary_amended_witness :
    (∃ pr, _format_file ⟨"good.py", ".py", Except.ok "x = 1"⟩ "rst" false
        (fun _ => Except.ok (true, 0)) (fun _ => Except.ok (false, 0)) =
      Except.ok pr) ∧
    _format_file ⟨"broken.py", ".py", Except.ok "def ("⟩ "rst" false
        (fun _ => Except.error "ParserSyntaxError".data)
        (fun _ => Except.ok (false, 0)) =
      Except.ok (false, 1) ∧
    ("x.py" ∉ (_run_formatter false false
        [("x.py", TaskResult.raised "io".data)]).1.files_to_cache ∧
      1 ≤ (_run_formatter false false
        [("x.py", TaskResult.raised "io".data)]).1.error_count) := by
  have h := c6_job_boundary_amended
  refine ⟨h.1 _ "rst" false _ _ "x = 1" rfl,
    h.2.1 _ "rst" false _ _ "def (" "ParserSyntaxError".data rfl rfl rfl, ?_, ?_⟩
  · exact (h.2.2 false false _ "x.py" "io".data (by simp)).1 (by simp)
  · exact (h.2.2 false false _ "x.py" "io".data (by simp)).2

/-- Claim C7 counterexample: in a file whose first docstring block triggers
the width violation (line_length - indent_level < 1), the traversal aborts at
that block — the raise is only caught at the file boundary, which reports one
error for the whole file and returns `(false, 1)` — and the second block,
which alone would be found misformatted and rewritten, is never processed. -/
theorem c7_block_error_aborts_traversal :
    visitBlocks renderModel zeroErrEngine true 88
        [⟨[], "\"\"\"ok\"\"\"".data, 100⟩,
         ⟨[], "\"\"\"Hello  world\"\"\"".data, 0⟩] =
      Except.error "Invalid starting width".data ∧
    _format_file ⟨"m.py", ".py", Except.ok "src"⟩ "rst" false
        (fun _ => _process_python renderModel zeroErrEngine true 88
          [⟨[], "\"\"\"ok\"\"\"".data, 100⟩,
           ⟨[], "\"\"\"Hello  world\"\"\"".data, 0⟩])
        (fun _ => Except.ok (false, 0)) =
      Except.ok (false, 1) ∧
    (∃ r, leave_SimpleString renderModel zeroErrEngine true 88 0 []
        "\"\"\"Hello  world\"\"\"".data = Except.ok r ∧ r.misformatted = true) :=
  ⟨rfl, rfl, ⟨⟨true, 0, "\"\"\"\nHello world\n\"\"\"".data⟩, rfl, rfl⟩⟩

/-- Claim C7 (amended): an exception raised while re-parsing a docstring
block — including the width violation when line_length - indent_level < 1 —
propagates out of the traversal (the blocks after the failing one are NOT
processed) and is caught at the file boundary in `_format_file`, which
reports the failure with file context and counts exactly one error,
returning `(false, 1)`. -/
theorem c7_block_error_caught_at_file_level (render : Nat → Str → Str)
    (errC : Nat → Str → Nat) (P : Bool) (ll : Nat) (b : Block)
    (bs : List Block) (file : SrcFile) (s : String)
    (pRst : String → Except Str (Bool × Nat)) (blocks : List Block) (e : Str)
    (hw : ll < b.indent_level + 1)
    (hread : file.readResult = Except.ok s) (hsfx : file.suffix = ".py")
    (herr : visitBlocks render errC P ll blocks = Except.error e) :
    visitBlocks render errC P ll (b :: bs) =
      Except.error "Invalid starting width".data ∧
    _format_file file "rst" false
        (fun _ => _process_python render errC P ll blocks) pRst =
      Except.ok (false, 1) := by
  constructor
  · simp only [visitBlocks, leave_SimpleString]
    rw [if_pos hw]
  · simp only [_format_file, hread]
    have hcond : (file.suffix == ".py" || ("rst" == "py" && file.name == "-")) = true := by
      simp [hsfx]
    rw [if_pos hcond]
    simp only [_process_python, herr, Except.map]

/-- Witness for claim C7's amended theorem at the concrete two-block file. -/
theorem c7_block_error_caught_at_file_level_witness :
    visitBlocks renderModel zeroErrEngine true 88
        (⟨[], "\"\"\"ok\"\"\"".data, 100⟩ ::
          [⟨[], "\"\"\"second\"\"\"".data, 0⟩]) =
      Except.error "Invalid starting width".data ∧
    _format_file ⟨"n.py", ".py", Except.ok "src2"⟩ "rst" false
        (fun _ => _process_python renderModel zeroErrEngine true 88
          (⟨[], "\"\"\"ok\"\"\"".data, 100⟩ ::
            [⟨[], "\"\"\"second\"\"\"".data, 0⟩]))
        (fun _ => Except.ok (false, 0)) =
      Except.ok (false, 1) :=
  c7_block_error_caught_at_file_level renderModel zeroErrEngine true 88
    ⟨[], "\"\"\"ok\"\"\"".data, 100⟩ [⟨[], "\"\"\"second\"\"\"".data, 0⟩]
    ⟨"n.py", ".py", Except.ok "src2"⟩ "src2" (fun _ => Except.ok (false, 0))
    (⟨[], "\"\"\"ok\"\"\"".data, 100⟩ :: [⟨[], "\"\"\"second\"\"\"".data, 0⟩])
    "Invalid starting width".data (by decide) rfl rfl (by rfl)

/-- Claim C8: CLI exit contract.  When the file arguments contain the stdin
sentinel together with at least one other path, the invocation is rejected
with exit code 2 before any file is processed (nothing scheduled, no cache
activity); otherwise, for runs over file arguments, the exit code is non-zero
exactly when check mode found misformatted files or any error occurred. -/
theorem c8_cli_exit_contract (check raw_output : Bool) (cache0 : Cache)
    (fp : FileId → Nat) (outcome : FileId → Except Str (Bool × Nat))
    (files : List FileId) :
    ("-" ∈ files → 1 < files.length →
      main check raw_output none cache0 fp outcome files =
        Except.ok ⟨2, [], [], 0, [], cache0, [], 0⟩) ∧
    (¬("-" ∈ files ∧ 1 < files.length) →
      ∀ res, main check raw_output none cache0 fp outcome files = Except.ok res →
        (res.exit_code ≠ 0 ↔
          ((check = true ∧ res.misformatted_files ≠ []) ∨ 0 < res.error_count))) := by
  constructor
  · intro h1 h2
    unfold main
    rw [if_pos ⟨h1, h2⟩]
  · intro hno res hres
    unfold main at hres
    rw [if_neg hno] at hres
    simp only at hres
    by_cases hlen : files.length < 2
    · rw [if_pos hlen] at hres
      cases files with
      | nil =>
        simp only [Except.ok.injEq] at hres
        subst hres
        simpa using exitOf_ne_zero check [] 0
      | cons f rest =>
        simp only at hres
        cases ho : outcome f with
        | error e => rw [ho] at hres; simp at hres
        | ok pr =>
          obtain ⟨m, ec⟩ := pr
          rw [ho] at hres
          simp only [Except.ok.injEq] at hres
          subst hres
          simpa using exitOf_ne_zero check (if m then [f] else []) ec
    · rw [if_neg hlen] at hres
      simp only [Except.ok.injEq] at hres
      subst hres
      simpa [runMulti] using exitOf_ne_zero check _ _

/-- Witness for claim C8: stdin mixed with a path is rejected with exit 2,
and a clean check run exits 0. -/
theorem c8_cli_exit_contract_witness :
    main true false none [] (fun _ => 0) (fun _ => Except.ok (false, 0))
        ["-", "a.py"] =
      Except.ok ⟨2, [], [], 0, [], [], [], 0⟩ ∧
    ∀ res, main true false none [] (fun _ => 0)
        (fun _ => Except.ok (false, 0)) ["b.py"] = Except.ok res →
      (res.exit_code ≠ 0 ↔
        ((true = true ∧ res.misformatted_files ≠ []) ∨ 0 < res.error_count)) := by
  constructor
  · exact (c8_cli_exit_contract true false [] (fun _ => 0)
      (fun _ => Except.ok (false, 0)) ["-", "a.py"]).1 (by simp) (by simp)
  · exact (c8_cli_exit_contract true false [] (fun _ => 0)
      (fun _ => Except.ok (false, 0)) ["b.py"]).2 (by simp)

/-- Claim C9 counterexample: `leave_ClassDef` does not clear the pending
assignment marker.  After visiting class C, seeing the assignment target x
inside it and leaving the class, the marker still holds x, and a module-level
docstring right after the class body is classified as attribute documentation
m.x of the assignment made inside the exited scope — which the claim says can
never happen. -/
theorem c9_marker_survives_scope_exit :
    (runVisitor (initVisitor "m")
      [TravEvent.visitModule, TravEvent.visitClassDef "C",
       TravEvent.visitAssignTarget "x", TravEvent.leaveClassDef]).1.last_assign =
      some "x" ∧
    (runVisitor (initVisitor "m")
      [TravEvent.visitModule, TravEvent.visitClassDef "C",
       TravEvent.visitAssignTarget "x", TravEvent.leaveClassDef,
       TravEvent.leaveString true]).2 =
      [⟨some "attribute", ["m", "x"]⟩] :=
  ⟨rfl, rfl⟩

/-- Claim C9 (amended): throughout a well-nested traversal the scope-name
stack depth equals one (the module name) plus the current nesting depth —
each scope entry pushes one name and each exit pops exactly one, and the
temporary attribute push at a docstring is popped within the same callback;
the pending-attribute marker is cleared when consumed by a docstring and on
scope entry, but NOT on scope exit: `leave_ClassDef` and `leave_FunctionDef`
leave the marker untouched, so a docstring directly after a scope exit is
classified as attribute documentation of the last assignment made inside the
exited scope. -/
theorem c9_scope_tracking_amended :
    (∀ (evs : List TravEvent) (object_name : String),
      (∀ pre suf, evs = pre ++ suf →
        countExits pre + 1 ≤ 1 + countEnters pre) →
      (runVisitor (initVisitor object_name) evs).1.object_names.length +
          countExits evs = 1 + countEnters evs) ∧
    (∀ (st : VisitorState) (n : String),
      (stepVisitor st (TravEvent.visitClassDef n)).1.last_assign = none ∧
      (stepVisitor st (TravEvent.visitFunctionDef n)).1.last_assign = none) ∧
    (∀ (st : VisitorState) (n : String), st.last_assign = some n →
      (stepVisitor st (TravEvent.leaveString true)).1.last_assign = none ∧
      (stepVisitor st (TravEvent.leaveString true)).1.object_names =
        st.object_names ∧
      (stepVisitor st (TravEvent.leaveString true)).2 =
        some ⟨some "attribute", st.object_names ++ [n]⟩) ∧
    (∀ st : VisitorState,
      (stepVisitor st TravEvent.leaveClassDef).1.last_assign = st.last_assign ∧
      (stepVisitor st TravEvent.leaveFunctionDef).1.last_assign = st.last_assign) := by
  refine ⟨?_, ?_, ?_, ?_⟩
  · intro evs object_name hbal
    exact runVisitor_names_length evs (initVisitor object_name)
      (by intro pre suf hsp; simpa [initVisitor] using hbal pre suf hsp)
  · intro st n
    exact ⟨rfl, rfl⟩
  · intro st n hla
    simp [stepVisitor, hla]
  · intro st
    exact ⟨rfl, rfl⟩

/-- Witness for claim C9's amended theorem: the depth invariant on a concrete
well-nested traversal, and the consumption of a concrete pending marker. -/
theorem c9_scope_tracking_amended_witness :
    ((runVisitor (initVisitor "m")
        [TravEvent.visitClassDef "C",
         TravEvent.leaveClassDef]).1.object_names.length +
      countExits [TravEvent.visitClassDef "C", TravEvent.leaveClassDef] =
      1 + countEnters [TravEvent.visitClassDef "C", TravEvent.leaveClassDef]) ∧
    (stepVisitor ⟨["m"], some "module", some "x"⟩
        (TravEvent.leaveString true)).1.last_assign = none := by
  constructor
  · apply c9_scope_tracking_amended.1
    intro pre suf hsp
    rcases pre with _ | ⟨a, _ | ⟨b, _ | ⟨c, rest⟩⟩⟩
    · decide
    · simp only [List.cons_append, List.nil_append, List.cons.injEq] at hsp
      obtain ⟨ha, -⟩ := hsp
      subst ha
      decide
    · simp only [List.cons_append, List.nil_append, List.cons.injEq] at hsp
      obtain ⟨ha, hb, -⟩ := hsp
      subst ha
      subst hb
      decide
    · exfalso
      simp at hsp
  · exact (c9_scope_tracking_amended.2.2.1 ⟨["m"], some "module", some "x"⟩ "x" rfl).1

/-- Claim C10: a named file whose suffix is neither .py nor .rst (nor .txt
with include_txt) is read by `_format_file` but not formatted: the job
returns `(misformatted = false, error_count = 0)` without reporting anything,
and in a multi-file run such a completed task is appended to the cache-write
batch. -/
theorem c10_unknown_suffix_eligible (file : SrcFile) (ft : String) (it : Bool)
    (pPy pRst : String → Except Str (Bool × Nat)) (s : String)
    (check raw : Bool) (results : List (FileId × TaskResult)) (f : FileId)
    (hname : file.name ≠ "-")
    (hsfx : file.suffix ∉ ([".py", ".rst"] ++ (if it then [".txt"] else [])))
    (hread : file.readResult = Except.ok s)
    (hmem : (f, TaskResult.completed false 0) ∈ results) :
    _format_file file ft it pPy pRst = Except.ok (false, 0) ∧
    f ∈ (_run_formatter check raw results).1.files_to_cache := by
  constructor
  · have hname2 : (file.name == "-") = false := by
      simp [hname]
    have hpy : (file.suffix == ".py") = false := by
      have : file.suffix ≠ ".py" := by
        intro hh
        exact hsfx (by rw [hh]; simp)
      simp [this]
    have hmemRst : file.suffix ∉ (if it then [".rst", ".txt"] else [".rst"]) := by
      intro hh
      apply hsfx
      cases it <;> simp_all
    simp only [_format_file, hread]
    rw [if_neg (by simp [hpy, hname2]), if_neg (by simp [hmemRst, hname2])]
  · exact runFold_files_complete check raw results initRunState f hmem

/-- Witness for claim C10: a Markdown file given directly on the command line
is read, unprocessed, reported clean and cached. -/
theorem c10_unknown_suffix_eligible_witness :
    _format_file ⟨"README.md", ".md", Except.ok "hello"⟩ "rst" false
        (fun _ => Except.ok (true, 3)) (fun _ => Except.ok (true, 3)) =
      Except.ok (false, 0) ∧
    "README.md" ∈ (_run_formatter false false
        [("README.md", TaskResult.completed false 0)]).1.files_to_cache :=
  c10_unknown_suffix_eligible ⟨"README.md", ".md", Except.ok "hello"⟩ "rst" false
    (fun _ => Except.ok (true, 3)) (fun _ => Except.ok (true, 3)) "hello"
    false false [("README.md", TaskResult.completed false 0)] "README.md"
    (by simp) (by simp) rfl (by simp)

end Docstrfmt
